import Mathlib

/-!
# A shallow embedding of the leveled logger `log.go`

The Go package keeps a `Log` value (sink, threshold, caller-annotation mode),
builds it with `NewLog` from a list of configuration steps and offers twelve
emit methods that filter by level, render one line and write it to the sink.

Conventions of the embedding:

* a Go `string` / `[]byte` is a list of bytes (`GoString`), a `byte` is a natural number;
* a pointer receiver `*Log` is passed and returned as a value;
* everything the code reads from its surroundings during one emit call (the clock, the
  caller lookup, the result of the sink's `Write`) is collected in an `Env`;
* everything the code does to its surroundings is appended to a `World`, the chronological
  list of `Write` calls on sinks and of diagnostic lines printed to the fallback stream;
* a call either returns or panics (`Outcome`).
-/

namespace MrLog

/-! ## Strings, errors, sinks -/

/-- Go `string` and `[]byte`: a sequence of bytes. -/
abbrev GoString := List Nat

/-- Bytes of a source literal (its UTF-8 encoding). -/
def str (s : String) : GoString :=
  (s.data.flatMap String.utf8EncodeChar).map UInt8.toNat

/-- Go `error` values that are not `nil`: a value made by `errors.New`, identified by its
text, or the result of `errors.Join` on two non-nil errors. -/
inductive GoError where
  | new (text : String)
  | join (a b : GoError)
  deriving DecidableEq, Repr

/-- Source `ErrInvalidLogLevel = errors.New("log: invalid log level")` -/
def ErrInvalidLogLevel : GoError := GoError.new "log: invalid log level"

/-- Source `ErrLogFatal = errors.New("log: error log FATAL")` -/
def ErrLogFatal : GoError := GoError.new "log: error log FATAL"

/-- Source `ErrLog = errors.New("log error")` -/
def ErrLog : GoError := GoError.new "log error"

/-- Source `errors.Join(a, b)` for two non-nil errors: an error wrapping both. -/
def errorsJoin (a b : GoError) : GoError := GoError.join a b

/-- Source `errors.Is(err, target)`: `err` equals `target`, or wraps (through `errors.Join`) an
error that does. -/
def errorsIs : GoError → GoError → Bool
  | GoError.new t, target => decide (GoError.new t = target)
  | GoError.join a b, target =>
    decide (GoError.join a b = target) || errorsIs a target || errorsIs b target

/-- An `io.Writer` value: the standard error stream or any other sink, named by a number. -/
inductive Writer where
  | stderr
  | sink (id : Nat)
  deriving DecidableEq, Repr

/-! ## The logger -/

/-- Source `type Log struct { init bool; fd io.Writer; level byte; fNameMode byte }` -/
structure Log where
  init : Bool
  fd : Writer
  level : Nat
  fNameMode : Nat
  deriving DecidableEq, Repr

def LOGFATAL : Nat := 1
def LOGERR : Nat := 2
def LOGWARN : Nat := 3
def LOGINFO : Nat := 4
def LOGDEBUG : Nat := 5
def LOGTRACE : Nat := 6

def FILENAME_MODE_NONE : Nat := 0
def FILENAME_MODE_FILEONLY : Nat := 1
def FILENAME_MODE_FILEPATH : Nat := 2

/-- Source `func (l *Log) toLog(lvl byte) bool { return l.level >= lvl }` -/
def Log.toLog (l : Log) (lvl : Nat) : Bool := decide (l.level ≥ lvl)

/-- Source `func isValid(lvl byte) bool { return lvl >= LOGFATAL && lvl <= LOGTRACE }` -/
def isValid (lvl : Nat) : Bool := decide (lvl ≥ LOGFATAL) && decide (lvl ≤ LOGTRACE)

/-- Source `defaultLog`: standard error, `LOGINFO`, file name only; `init` keeps its zero value. -/
def defaultLog : Log :=
  { init := false, fd := Writer.stderr, level := LOGINFO, fNameMode := FILENAME_MODE_FILEONLY }

/-- Source `lvlStr`: the name printed for a level, empty outside the six known levels. -/
def lvlStr (lvl : Nat) : GoString :=
  if lvl = LOGFATAL then str "FATAL"
  else if lvl = LOGERR then str "ERR"
  else if lvl = LOGWARN then str "WARN"
  else if lvl = LOGINFO then str "INFO"
  else if lvl = LOGDEBUG then str "DEBUG"
  else if lvl = LOGTRACE then str "TRACE"
  else str ""

/-! ## Construction -/

/-- Source `type CfgFunc func(*Log) error`. A step receives the logger under construction and the
ambient program state `σ` it may read or change; it gives back the logger, the state and its
error result (`none` is `nil`). -/
abbrev CfgFunc (σ : Type) := Log → σ → Log × σ × Option GoError

/-- Source `WithWriter(writer)`: replaces the sink. -/
def WithWriter {σ : Type} (writer : Writer) : CfgFunc σ :=
  fun l s => ({ l with fd := writer }, s, none)

/-- Source `WithLevel(level)`: rejects a level that is not valid, else replaces the threshold. -/
def WithLevel {σ : Type} (level : Nat) : CfgFunc σ :=
  fun l s =>
    let valid := isValid level
    if !valid then (l, s, some ErrInvalidLogLevel)
    else ({ l with level := level }, s, none)

/-- Source `WithFileName`: caller annotation by file name only. -/
def WithFileName {σ : Type} : CfgFunc σ :=
  fun l s => ({ l with fNameMode := FILENAME_MODE_FILEONLY }, s, none)

/-- Source `WithFilePath`: caller annotation by full file path. -/
def WithFilePath {σ : Type} : CfgFunc σ :=
  fun l s => ({ l with fNameMode := FILENAME_MODE_FILEPATH }, s, none)

/-- The `for _, f := range cfgFuncs` loop of `NewLog`, started on `log`: the first step
that returns an error ends the call with `nil` and `errors.Join(ErrLog, err)`. -/
def NewLog.loop {σ : Type} : List (CfgFunc σ) → Log → σ → (Option Log × Option GoError) × σ
  | [], log, s => ((some log, none), s)
  | f :: fs, log, s =>
    match f log s with
    | (log1, s1, none) => NewLog.loop fs log1 s1
    | (_, s1, some err) => ((none, some (errorsJoin ErrLog err)), s1)

/-- Source `func NewLog(cfgFuncs ...CfgFunc) (*Log, error)`; the second component of the result is
the ambient state the steps left behind. -/
def NewLog {σ : Type} (cfgFuncs : List (CfgFunc σ)) (s : σ) :
    (Option Log × Option GoError) × σ :=
  NewLog.loop cfgFuncs defaultLog s

/-- The four configuration steps the package exports. -/
inductive Step where
  | withWriter (w : Writer)
  | withLevel (x : Nat)
  | withFileName
  | withFilePath
  deriving DecidableEq, Repr

/-- The `CfgFunc` a recognized step stands for. -/
def Step.cfg {σ : Type} : Step → CfgFunc σ
  | Step.withWriter w => WithWriter w
  | Step.withLevel x => WithLevel x
  | Step.withFileName => WithFileName
  | Step.withFilePath => WithFilePath

/-! ## Formatting helpers of the standard library -/

/-- An operand (`interface{}`) handed to the `fmt` functions. -/
inductive Operand where
  | string (s : GoString)
  | int (i : Int)
  | other (text : GoString)
  deriving DecidableEq, Repr

/-- Decimal rendering of an integer (`%d`), with a leading minus sign when negative. -/
def decimal (i : Int) : GoString := str (toString i)

/-- Default (`%v`) text of an operand: a string verbatim, an integer in decimal, any other
value by the text it carries. -/
def Operand.text : Operand → GoString
  | Operand.string s => s
  | Operand.int i => decimal i
  | Operand.other t => t

/-- Operand texts separated by single spaces. -/
def spaced : List Operand → GoString
  | [] => []
  | [a] => a.text
  | a :: b :: rest => a.text ++ str " " ++ spaced (b :: rest)

/-- Source `fmt.Sprintln`: the operands in default format, a space between any two of them, and a
newline at the end. -/
def Sprintln (params : List Operand) : GoString := spaced params ++ str "\n"

/-- Source `fmt.Sprintf`. A template without a percent sign and without operands is returned as it
is; every other case is left to `verbs`, the verb interpreter of the library. -/
def Sprintf (verbs : GoString → List Operand → GoString) (fmtstr : GoString)
    (params : List Operand) : GoString :=
  if 37 ∉ fmtstr ∧ params = [] then fmtstr else verbs fmtstr params

/-- Source `strings.LastIndex(s, sep)` for a one-byte separator `c`: the index of the last `c` in
`s`, or `-1` when there is none. -/
def LastIndex : GoString → Nat → Int
  | [], _ => -1
  | b :: rest, c =>
    let r := LastIndex rest c
    if 0 ≤ r then r + 1 else if b = c then 0 else -1

/-! ## Emitting -/

/-- What a panic carries: a value given to `panic`, or the run-time error of a slice
expression whose bounds are out of range. -/
inductive Panic where
  | value (e : GoError)
  | sliceBounds
  deriving DecidableEq, Repr

/-- How a call ends. -/
inductive Outcome where
  | returned
  | panicked (p : Panic)
  deriving DecidableEq, Repr

/-- One observable action: `fd.Write(p)` on a sink, or a line printed with
`fmt.Fprintln(os.Stderr, ...)`. -/
inductive Event where
  | write (fd : Writer) (p : GoString)
  | note (line : GoString)
  deriving DecidableEq, Repr

/-- The actions performed so far, oldest first. -/
abbrev World := List Event

/-- The byte strings passed to `Write` on sink `fd`, oldest first. -/
def written (fd : Writer) : World → List GoString
  | [] => []
  | Event.write fd1 p :: rest => if fd1 = fd then p :: written fd rest else written fd rest
  | Event.note _ :: rest => written fd rest

/-- The diagnostic lines printed to the fallback stream, oldest first. -/
def notes : World → List GoString
  | [] => []
  | Event.write _ _ :: rest => notes rest
  | Event.note line :: rest => line :: notes rest

/-- What one emit call reads from its surroundings. -/
structure Env where
  /-- Source `time.Now().Format(time.DateTime)` -/
  now : GoString
  /-- Source `_, file, line, ok := runtime.Caller(3)` -/
  callerFile : GoString
  callerLine : Int
  callerOk : Bool
  /-- Source `n, err := l.fd.Write([]byte(log))` -/
  writeN : Int
  writeErr : Option GoError
  /-- the verb interpreter behind `fmt.Sprintf` -/
  verbs : GoString → List Operand → GoString

/-- The slice expression `b[i:]`: defined when `0 ≤ i ≤ len(b)`, a run-time panic otherwise. -/
def sliceFrom (b : GoString) (i : Int) : Option GoString :=
  if 0 ≤ i ∧ i ≤ (b.length : Int) then some (b.drop i.toNat) else none

/-- Source `fmt.Sprintf("%s |%s| %s", now, lvlStr(lvl), msg)` -/
def plainLine (now : GoString) (lvl : Nat) (msg : GoString) : GoString :=
  now ++ str " |" ++ lvlStr lvl ++ str "| " ++ msg

/-- Source `fmt.Sprintf("%s |%s| %s:%d: %s", now, lvlStr(lvl), file, line, msg)` -/
def locatedLine (now : GoString) (lvl : Nat) (file : GoString) (line : Int)
    (msg : GoString) : GoString :=
  now ++ str " |" ++ lvlStr lvl ++ str "| " ++ file ++ str ":" ++ decimal line ++ str ": " ++ msg

/-- The `if !ok { fmt.Fprintln(os.Stderr, "log: err getting caller") }` statement. -/
def callerNote (ok : Bool) (w : World) : World :=
  if !ok then w ++ [Event.note (Sprintln [Operand.string (str "log: err getting caller")])]
  else w

/-- The write step that ends `logWrite`: one `Write` of the whole line, then the two checks
on its result. -/
def writeStep (l : Log) (env : Env) (log : GoString) (w : World) : World :=
  let w1 := w ++ [Event.write l.fd log]
  let w2 :=
    if env.writeErr ≠ none then
      w1 ++ [Event.note (Sprintln [Operand.string (str "log: err writing log")])]
    else w1
  if env.writeN ≠ (log.length : Int) then
    w2 ++ [Event.note (Sprintln [Operand.string (str "log: err unexpected bytes written:"),
      Operand.int log.length, Operand.int env.writeN])]
  else w2

/-- Source `func (l *Log) logWrite(lvl byte, msg string)` -/
def Log.logWrite (l : Log) (env : Env) (lvl : Nat) (msg : GoString) (w : World) :
    World × Outcome :=
  if l.fNameMode = FILENAME_MODE_NONE then
    (writeStep l env (plainLine env.now lvl msg) w, Outcome.returned)
  else if l.fNameMode = FILENAME_MODE_FILEONLY then
    let slashOffset := LastIndex env.callerFile 47
    match sliceFrom env.callerFile (slashOffset + 1) with
    | none => (w, Outcome.panicked Panic.sliceBounds)
    | some file =>
      let w1 := callerNote env.callerOk w
      (writeStep l env (locatedLine env.now lvl file env.callerLine msg) w1, Outcome.returned)
  else if l.fNameMode = FILENAME_MODE_FILEPATH then
    let w1 := callerNote env.callerOk w
    (writeStep l env (locatedLine env.now lvl env.callerFile env.callerLine msg) w1,
      Outcome.returned)
  else
    (writeStep l env (plainLine env.now lvl msg) w, Outcome.returned)

/-- Source `func (l *Log) log(lvl byte, params ...interface{})` -/
def Log.log (l : Log) (env : Env) (lvl : Nat) (params : List Operand) (w : World) :
    World × Outcome :=
  let toLog := l.toLog lvl
  if !toLog then (w, Outcome.returned)
  else
    let msg := Sprintln params
    l.logWrite env lvl msg w

/-- Source `func (l *Log) logf(lvl byte, fmtstr string, params ...interface{})` -/
def Log.logf (l : Log) (env : Env) (lvl : Nat) (fmtstr : GoString) (params : List Operand)
    (w : World) : World × Outcome :=
  let toLog := l.toLog lvl
  if !toLog then (w, Outcome.returned)
  else
    let msg := Sprintf env.verbs fmtstr params
    l.logWrite env lvl msg w

/-- A statement `panic(e)` reached after a call that ended as `r`: when that call itself
panicked, its panic goes on and the statement is not reached. -/
def thenPanic (r : World × Outcome) (e : GoError) : World × Outcome :=
  match r with
  | (w, Outcome.returned) => (w, Outcome.panicked (Panic.value e))
  | (w, Outcome.panicked p) => (w, Outcome.panicked p)

/-- Source `Fatal`: `l.log(LOGFATAL, params...)` followed by `panic(ErrLogFatal)`. -/
def Log.Fatal (l : Log) (env : Env) (params : List Operand) (w : World) : World × Outcome :=
  thenPanic (l.log env LOGFATAL params w) ErrLogFatal

/-- Source `Fatalf`: `l.logf(LOGFATAL, fmtstr, params...)` followed by `panic(ErrLogFatal)`. -/
def Log.Fatalf (l : Log) (env : Env) (fmtstr : GoString) (params : List Operand)
    (w : World) : World × Outcome :=
  thenPanic (l.logf env LOGFATAL fmtstr params w) ErrLogFatal

def Log.Err (l : Log) (env : Env) (params : List Operand) (w : World) : World × Outcome :=
  l.log env LOGERR params w

def Log.Errf (l : Log) (env : Env) (fmtstr : GoString) (params : List Operand)
    (w : World) : World × Outcome :=
  l.logf env LOGERR fmtstr params w

def Log.Warn (l : Log) (env : Env) (params : List Operand) (w : World) : World × Outcome :=
  l.log env LOGWARN params w

def Log.Warnf (l : Log) (env : Env) (fmtstr : GoString) (params : List Operand)
    (w : World) : World × Outcome :=
  l.logf env LOGWARN fmtstr params w

def Log.Info (l : Log) (env : Env) (params : List Operand) (w : World) : World × Outcome :=
  l.log env LOGINFO params w

def Log.Infof (l : Log) (env : Env) (fmtstr : GoString) (params : List Operand)
    (w : World) : World × Outcome :=
  l.logf env LOGINFO fmtstr params w

def Log.Debug (l : Log) (env : Env) (params : List Operand) (w : World) : World × Outcome :=
  l.log env LOGDEBUG params w

def Log.Debugf (l : Log) (env : Env) (fmtstr : GoString) (params : List Operand)
    (w : World) : World × Outcome :=
  l.logf env LOGDEBUG fmtstr params w

def Log.Trace (l : Log) (env : Env) (params : List Operand) (w : World) : World × Outcome :=
  l.log env LOGTRACE params w

def Log.Tracef (l : Log) (env : Env) (fmtstr : GoString) (params : List Operand)
    (w : World) : World × Outcome :=
  l.logf env LOGTRACE fmtstr params w

/-- The line handed to the write step by `logWrite`. -/
def renderedLine (l : Log) (env : Env) (lvl : Nat) (msg : GoString) : GoString :=
  if l.fNameMode = FILENAME_MODE_FILEONLY then
    locatedLine env.now lvl
      (env.callerFile.drop (LastIndex env.callerFile 47 + 1).toNat) env.callerLine msg
  else if l.fNameMode = FILENAME_MODE_FILEPATH then
    locatedLine env.now lvl env.callerFile env.callerLine msg
  else plainLine env.now lvl msg

/-! ## Sequences of calls -/

/-- One call of the message form or of the formatted form, with the surroundings it meets. -/
inductive Call where
  | log (env : Env) (lvl : Nat) (params : List Operand)
  | logf (env : Env) (lvl : Nat) (fmtstr : GoString) (params : List Operand)

/-- The level a call logs at. -/
def Call.lvl : Call → Nat
  | Call.log _ lvl _ => lvl
  | Call.logf _ lvl _ _ => lvl

/-- Performs one call on logger `l`. -/
def Log.call (l : Log) (c : Call) (w : World) : World × Outcome :=
  match c with
  | Call.log env lvl params => l.log env lvl params w
  | Call.logf env lvl fmtstr params => l.logf env lvl fmtstr params w

/-- Performs the calls one after the other; a panic ends the sequence. -/
def Log.calls (l : Log) : List Call → World → World × Outcome
  | [], w => (w, Outcome.returned)
  | c :: cs, w =>
    match l.call c w with
    | (w1, Outcome.returned) => Log.calls l cs w1
    | (w1, Outcome.panicked p) => (w1, Outcome.panicked p)

/-! ## Last-write-wins, as the specification words it -/

/-- The sink named by the last `WithWriter` step of the list, if there is one. -/
def lastWriter (steps : List Step) : Option Writer :=
  steps.reverse.findSome? fun st =>
    match st with
    | Step.withWriter w => some w
    | _ => none

/-- The level named by the last `WithLevel` step of the list, if there is one. -/
def lastLevel (steps : List Step) : Option Nat :=
  steps.reverse.findSome? fun st =>
    match st with
    | Step.withLevel x => some x
    | _ => none

/-- The annotation mode named by the last `WithFileName` or `WithFilePath` step of the
list, if there is one. -/
def lastMode (steps : List Step) : Option Nat :=
  steps.reverse.findSome? fun st =>
    match st with
    | Step.withFileName => some FILENAME_MODE_FILEONLY
    | Step.withFilePath => some FILENAME_MODE_FILEPATH
    | _ => none

/-! ## Sample values -/

/-- A logger as `NewLog(WithWriter(w), WithLevel(LOGERR))` returns it. -/
def sampleLog : Log :=
  { init := false, fd := Writer.sink 0, level := LOGERR, fNameMode := FILENAME_MODE_FILEONLY }

/-- Surroundings of a call made from line 48 of a test file, with a sink that takes every
byte of a 59-byte line. -/
def sampleEnv : Env :=
  { now := str "2024-01-02 03:04:05", callerFile := str "/home/u/log/log_test.go",
    callerLine := 48, callerOk := true, writeN := 59, writeErr := none,
    verbs := fun fmtstr _ => fmtstr }

/-- Two calls below the threshold of `sampleLog`. -/
def sampleCalls : List Call :=
  [Call.log sampleEnv LOGWARN [Operand.string (str "disk"), Operand.int 3],
   Call.logf sampleEnv LOGTRACE (str "tick") []]

/-- A configuration step that counts, in the ambient state, how often it is applied. -/
def countingStep : CfgFunc Nat := fun l s => (l, s + 1, none)

/-! ## Parts of a rendered line, diagnostic lines -/

/-- Every `Write` call made so far, on whatever sink, oldest first. -/
def allWrites : World → List (Writer × GoString)
  | [] => []
  | Event.write fd p :: rest => (fd, p) :: allWrites rest
  | Event.note _ :: rest => allWrites rest

/-- The value of `file` after `file = string([]byte(file)[slashOffset+1:])`, where
`slashOffset := strings.LastIndex(file, "/")`: what stands after the last slash. -/
def baseName (file : GoString) : GoString := file.drop (LastIndex file 47 + 1).toNat

/-- The text that `%s:%d: ` makes of a file and a line number. -/
def location (file : GoString) (line : Int) : GoString :=
  file ++ str ":" ++ decimal line ++ str ": "

/-- The location part of the line a logger renders: the base name and line in file-name-only
mode, the whole path and line in full-path mode, nothing in every other mode. -/
def locationPart (l : Log) (env : Env) : GoString :=
  if l.fNameMode = FILENAME_MODE_FILEONLY then location (baseName env.callerFile) env.callerLine
  else if l.fNameMode = FILENAME_MODE_FILEPATH then location env.callerFile env.callerLine
  else []

/-- The line printed by `fmt.Fprintln(os.Stderr, "log: err getting caller")`. -/
def callerNoteLine : GoString := Sprintln [Operand.string (str "log: err getting caller")]

/-- The line printed by `fmt.Fprintln(os.Stderr, "log: err writing log")`. -/
def writeErrNoteLine : GoString := Sprintln [Operand.string (str "log: err writing log")]

/-- The line printed by
`fmt.Fprintln(os.Stderr, "log: err unexpected bytes written:", len(log), n)`. -/
def shortWriteNoteLine (len n : Int) : GoString :=
  Sprintln [Operand.string (str "log: err unexpected bytes written:"), Operand.int len,
    Operand.int n]

/-- The diagnostic lines one run of `logWrite` prints, in the order of the three `if`
statements that print them. -/
def diagnostics (l : Log) (env : Env) (lvl : Nat) (msg : GoString) : List GoString :=
  (if (l.fNameMode = FILENAME_MODE_FILEONLY ∨ l.fNameMode = FILENAME_MODE_FILEPATH) ∧
      env.callerOk = false then [callerNoteLine] else []) ++
    (if env.writeErr ≠ none then [writeErrNoteLine] else []) ++
    (if env.writeN ≠ ((renderedLine l env lvl msg).length : Int) then
      [shortWriteNoteLine (renderedLine l env lvl msg).length env.writeN] else [])

/-- Surroundings in which everything goes wrong: the caller lookup fails and returns an
empty file and line 0, the sink reports an error and no byte written. -/
def failingEnv : Env :=
  { now := str "2024-01-02 03:04:05", callerFile := [], callerLine := 0, callerOk := false,
    writeN := 0, writeErr := some (GoError.new "sink closed"),
    verbs := fun fmtstr _ => fmtstr }

/-- A logger with the full-path annotation mode. -/
def pathLog : Log :=
  { init := false, fd := Writer.sink 0, level := LOGERR, fNameMode := FILENAME_MODE_FILEPATH }

/-- A logger whose annotation mode is none of the three known values. -/
def oddLog : Log := { init := false, fd := Writer.sink 0, level := LOGERR, fNameMode := 7 }

/-! ## Lemmas on construction -/

lemma isValid_iff (x : Nat) : isValid x = true ↔ 1 ≤ x ∧ x ≤ 6 := by
  simp [isValid, LOGFATAL, LOGTRACE]

lemma errorsIs_self (e : GoError) : errorsIs e e = true := by
  cases e <;> simp [errorsIs]

lemma errorsIs_join_left (a b : GoError) : errorsIs (errorsJoin a b) a = true := by
  simp [errorsJoin, errorsIs, errorsIs_self]

lemma errorsIs_join_right (a b : GoError) : errorsIs (errorsJoin a b) b = true := by
  simp [errorsJoin, errorsIs, errorsIs_self]

/-- When the steps of `pre` all return `nil`, the loop goes on with what follows them. -/
lemma loop_append {σ : Type} (pre rest : List (CfgFunc σ)) (l l1 : Log) (s s1 : σ)
    (h : NewLog.loop pre l s = ((some l1, none), s1)) :
    NewLog.loop (pre ++ rest) l s = NewLog.loop rest l1 s1 := by
  induction pre generalizing l s with
  | nil =>
    simp only [NewLog.loop, Prod.mk.injEq, Option.some.injEq, and_true] at h
    obtain ⟨h1, h2⟩ := h
    subst h1 h2
    rfl
  | cons f fs ih =>
    simp only [List.cons_append, NewLog.loop] at h ⊢
    rcases hf : f l s with ⟨l2, s2, _ | e⟩
    · rw [hf] at h
      simp only at h ⊢
      exact ih l2 s2 h
    · rw [hf] at h
      simp at h

/-- A step that returns an error ends the loop there. -/
lemma loop_cons_error {σ : Type} (f : CfgFunc σ) (post : List (CfgFunc σ)) (l l2 : Log)
    (s s2 : σ) (e : GoError) (h : f l s = (l2, s2, some e)) :
    NewLog.loop (f :: post) l s = ((none, some (errorsJoin ErrLog e)), s2) := by
  simp [NewLog.loop, h]

lemma lastWriter_cons (st : Step) (steps : List Step) :
    lastWriter (st :: steps) =
      (lastWriter steps).or (match st with | Step.withWriter w => some w | _ => none) := by
  cases st <;> simp [lastWriter, List.findSome?_append, List.findSome?]

lemma lastLevel_cons (st : Step) (steps : List Step) :
    lastLevel (st :: steps) =
      (lastLevel steps).or (match st with | Step.withLevel x => some x | _ => none) := by
  cases st <;> simp [lastLevel, List.findSome?_append, List.findSome?]

lemma lastMode_cons (st : Step) (steps : List Step) :
    lastMode (st :: steps) =
      (lastMode steps).or (match st with
        | Step.withFileName => some FILENAME_MODE_FILEONLY
        | Step.withFilePath => some FILENAME_MODE_FILEPATH
        | _ => none) := by
  cases st <;> simp [lastMode, List.findSome?_append, List.findSome?]

/-- Recognized steps with valid levels only: the loop succeeds, leaves the ambient state
alone and sets each field to what the last step aimed at it says. -/
lemma loop_steps_ok {σ : Type} (steps : List Step) (l : Log) (s : σ)
    (h : ∀ x, Step.withLevel x ∈ steps → isValid x = true) :
    NewLog.loop (steps.map Step.cfg) l s =
      ((some { init := l.init, fd := (lastWriter steps).getD l.fd,
               level := (lastLevel steps).getD l.level,
               fNameMode := (lastMode steps).getD l.fNameMode }, none), s) := by
  induction steps generalizing l with
  | nil => simp [NewLog.loop, lastWriter, lastLevel, lastMode]
  | cons st steps ih =>
    have h1 : ∀ x, Step.withLevel x ∈ steps → isValid x = true :=
      fun x hx => h x (List.mem_cons_of_mem _ hx)
    rw [lastWriter_cons, lastLevel_cons, lastMode_cons]
    cases st with
    | withWriter w0 =>
      simp only [List.map_cons, NewLog.loop, Step.cfg, WithWriter]
      rw [ih _ h1]
      cases lastWriter steps <;> simp
    | withLevel x =>
      have hx : isValid x = true := h x (List.mem_cons_self _ _)
      simp only [List.map_cons, NewLog.loop, Step.cfg, WithLevel, hx]
      simp only [Bool.not_true, Bool.false_eq_true, if_false]
      rw [ih _ h1]
      cases lastLevel steps <;> simp
    | withFileName =>
      simp only [List.map_cons, NewLog.loop, Step.cfg, WithFileName]
      rw [ih _ h1]
      cases lastMode steps <;> simp
    | withFilePath =>
      simp only [List.map_cons, NewLog.loop, Step.cfg, WithFilePath]
      rw [ih _ h1]
      cases lastMode steps <;> simp

/-- Recognized steps with some level that is not valid: the loop fails with
`errors.Join(ErrLog, ErrInvalidLogLevel)`. -/
lemma loop_steps_bad {σ : Type} (steps : List Step) (l : Log) (s : σ)
    (h : ∃ x, Step.withLevel x ∈ steps ∧ isValid x = false) :
    NewLog.loop (steps.map Step.cfg) l s =
      ((none, some (errorsJoin ErrLog ErrInvalidLogLevel)), s) := by
  induction steps generalizing l with
  | nil => simp at h
  | cons st steps ih =>
    obtain ⟨x, hx, hbad⟩ := h
    cases st with
    | withWriter w0 =>
      simp only [List.map_cons, NewLog.loop, Step.cfg, WithWriter]
      exact ih _ ⟨x, by simpa using hx, hbad⟩
    | withLevel y =>
      simp only [List.map_cons, NewLog.loop, Step.cfg, WithLevel]
      cases hy : isValid y with
      | false => simp
      | true =>
        simp only [Bool.not_true, Bool.false_eq_true, if_false]
        refine ih _ ⟨x, ?_, hbad⟩
        rcases List.mem_cons.mp hx with hx1 | hx1
        · injection hx1 with hxy
          rw [hxy, hy] at hbad
          cases hbad
        · exact hx1
    | withFileName =>
      simp only [List.map_cons, NewLog.loop, Step.cfg, WithFileName]
      exact ih _ ⟨x, by simpa using hx, hbad⟩
    | withFilePath =>
      simp only [List.map_cons, NewLog.loop, Step.cfg, WithFilePath]
      exact ih _ ⟨x, by simpa using hx, hbad⟩

/-- Either every `WithLevel` argument of the list is valid, or one of them is not. -/
lemma steps_valid_or_bad (steps : List Step) :
    (∀ x, Step.withLevel x ∈ steps → isValid x = true) ∨
      ∃ x, Step.withLevel x ∈ steps ∧ isValid x = false := by
  by_cases h : ∀ x, Step.withLevel x ∈ steps → isValid x = true
  · exact Or.inl h
  · right
    push_neg at h
    obtain ⟨x, hx, hne⟩ := h
    exact ⟨x, hx, by simpa using hne⟩

/-- The level named by the last `WithLevel` step is the argument of a step of the list. -/
lemma lastLevel_mem (steps : List Step) (x : Nat) (h : lastLevel steps = some x) :
    Step.withLevel x ∈ steps := by
  induction steps with
  | nil => simp [lastLevel] at h
  | cons st steps ih =>
    rw [lastLevel_cons] at h
    cases hl : lastLevel steps with
    | some y =>
      rw [hl] at h
      simp only [Option.or_some, Option.some.injEq] at h
      subst h
      exact List.mem_cons_of_mem _ (ih hl)
    | none =>
      rw [hl] at h
      cases st <;> simp at h
      subst h
      exact List.mem_cons_self _ _

/-- A logger built from recognized steps has a valid threshold. -/
lemma NewLog_level_valid {σ : Type} (steps : List Step) (s s1 : σ) (l : Log)
    (e : Option GoError) (h : NewLog (steps.map Step.cfg) s = ((some l, e), s1)) :
    isValid l.level = true := by
  rcases steps_valid_or_bad steps with hok | hbad
  · unfold NewLog at h
    rw [loop_steps_ok steps defaultLog s hok] at h
    simp only [Prod.mk.injEq, Option.some.injEq] at h
    obtain ⟨⟨h1, _⟩, _⟩ := h
    subst h1
    cases hl : lastLevel steps with
    | none => simp [defaultLog, LOGINFO, isValid, LOGFATAL, LOGTRACE]
    | some x => simpa using hok x (lastLevel_mem steps x hl)
  · unfold NewLog at h
    rw [loop_steps_bad steps defaultLog s hbad] at h
    simp at h

/-! ## Lemmas on emitting -/

lemma LastIndex_bounds (s : GoString) (c : Nat) :
    -1 ≤ LastIndex s c ∧ LastIndex s c < (s.length : Int) := by
  induction s with
  | nil => simp [LastIndex]
  | cons b rest ih =>
    simp only [LastIndex, List.length_cons, Nat.cast_add, Nat.cast_one]
    split_ifs <;> omega

/-- The slice `file[slashOffset+1:]` of `logWrite` is always within bounds. -/
lemma sliceFrom_LastIndex (s : GoString) (c : Nat) :
    sliceFrom s (LastIndex s c + 1) = some (s.drop (LastIndex s c + 1).toNat) := by
  have h := LastIndex_bounds s c
  unfold sliceFrom
  rw [if_pos ⟨by omega, by omega⟩]

lemma written_append (fd : Writer) (a b : World) :
    written fd (a ++ b) = written fd a ++ written fd b := by
  induction a with
  | nil => rfl
  | cons e rest ih =>
    cases e with
    | write fd1 p =>
      by_cases hfd : fd1 = fd <;> simp [written, hfd, ih]
    | note line => simp [written, ih]

lemma written_callerNote (fd : Writer) (ok : Bool) (w : World) :
    written fd (callerNote ok w) = written fd w := by
  cases ok <;> simp [callerNote, written_append, written]

/-- The write step calls `Write` on the logger's sink once, with the whole line. -/
lemma written_writeStep (l : Log) (env : Env) (log : GoString) (w : World) :
    written l.fd (writeStep l env log w) = written l.fd w ++ [log] := by
  unfold writeStep
  simp only
  split_ifs <;> simp [written_append, written]

/-- In every mode `logWrite` returns, having called `Write` on the sink exactly once, with
`renderedLine`. -/
lemma logWrite_written (l : Log) (env : Env) (lvl : Nat) (msg : GoString) (w : World) :
    (l.logWrite env lvl msg w).2 = Outcome.returned ∧
      written l.fd (l.logWrite env lvl msg w).1 =
        written l.fd w ++ [renderedLine l env lvl msg] := by
  unfold Log.logWrite renderedLine
  simp only [FILENAME_MODE_NONE, FILENAME_MODE_FILEONLY, FILENAME_MODE_FILEPATH]
  by_cases h0 : l.fNameMode = 0
  · simp [h0, written_writeStep]
  · by_cases h1 : l.fNameMode = 1
    · simp [h1, sliceFrom_LastIndex, written_writeStep, written_callerNote]
    · by_cases h2 : l.fNameMode = 2
      · simp [h2, written_writeStep, written_callerNote]
      · simp [h0, h1, h2, written_writeStep]

/-- The rendered line starts with the time stamp and the level tag and ends with the
message. -/
lemma renderedLine_shape (l : Log) (env : Env) (lvl : Nat) (msg : GoString) :
    ∃ loc : GoString, renderedLine l env lvl msg =
      env.now ++ str " |" ++ lvlStr lvl ++ str "| " ++ loc ++ msg := by
  unfold renderedLine locatedLine plainLine
  split_ifs
  · exact ⟨env.callerFile.drop (LastIndex env.callerFile 47 + 1).toNat ++ str ":" ++
      decimal env.callerLine ++ str ": ", by simp [List.append_assoc]⟩
  · exact ⟨env.callerFile ++ str ":" ++ decimal env.callerLine ++ str ": ",
      by simp [List.append_assoc]⟩
  · exact ⟨[], by simp⟩

lemma toLog_true_iff (l : Log) (lvl : Nat) : l.toLog lvl = true ↔ lvl ≤ l.level := by
  simp [Log.toLog]

lemma log_suppressed (l : Log) (env : Env) (lvl : Nat) (params : List Operand) (w : World)
    (h : l.level < lvl) : l.log env lvl params w = (w, Outcome.returned) := by
  have ht : l.toLog lvl = false := by simp [Log.toLog, h]
  simp [Log.log, ht]

lemma logf_suppressed (l : Log) (env : Env) (lvl : Nat) (fmtstr : GoString)
    (params : List Operand) (w : World) (h : l.level < lvl) :
    l.logf env lvl fmtstr params w = (w, Outcome.returned) := by
  have ht : l.toLog lvl = false := by simp [Log.toLog, h]
  simp [Log.logf, ht]

lemma log_emitted (l : Log) (env : Env) (lvl : Nat) (params : List Operand) (w : World)
    (h : lvl ≤ l.level) :
    l.log env lvl params w = l.logWrite env lvl (Sprintln params) w := by
  have ht : l.toLog lvl = true := by simp [Log.toLog, h]
  simp [Log.log, ht]

lemma logf_emitted (l : Log) (env : Env) (lvl : Nat) (fmtstr : GoString)
    (params : List Operand) (w : World) (h : lvl ≤ l.level) :
    l.logf env lvl fmtstr params w =
      l.logWrite env lvl (Sprintf env.verbs fmtstr params) w := by
  have ht : l.toLog lvl = true := by simp [Log.toLog, h]
  simp [Log.logf, ht]

/-- The message form never panics. -/
lemma log_returns (l : Log) (env : Env) (lvl : Nat) (params : List Operand) (w : World) :
    (l.log env lvl params w).2 = Outcome.returned := by
  by_cases h : lvl ≤ l.level
  · rw [log_emitted l env lvl params w h]
    exact (logWrite_written l env lvl _ w).1
  · rw [log_suppressed l env lvl params w (by omega)]

/-- The formatted form never panics. -/
lemma logf_returns (l : Log) (env : Env) (lvl : Nat) (fmtstr : GoString)
    (params : List Operand) (w : World) :
    (l.logf env lvl fmtstr params w).2 = Outcome.returned := by
  by_cases h : lvl ≤ l.level
  · rw [logf_emitted l env lvl fmtstr params w h]
    exact (logWrite_written l env lvl _ w).1
  · rw [logf_suppressed l env lvl fmtstr params w (by omega)]

lemma thenPanic_of_returned (r : World × Outcome) (e : GoError)
    (h : r.2 = Outcome.returned) :
    thenPanic r e = (r.1, Outcome.panicked (Panic.value e)) := by
  obtain ⟨w, o⟩ := r
  simp only at h
  subst h
  rfl

/-! ## Level filtering -/

/-- C1: for a logger whose threshold is a valid level and for a valid message level `lvl`,
`toLog lvl` is true exactly when `lvl ≤ threshold`; with threshold `LOGERR` (2) the levels
3, 4, 5 and 6 are suppressed and the levels 2 and 1 are emitted. -/
theorem toLog_iff_le_threshold (l : Log) (lvl : Nat) (hl : isValid l.level = true)
    (hlvl : isValid lvl = true) :
    (l.toLog lvl = true ↔ lvl ≤ l.level) ∧
      (l.level = LOGERR →
        l.toLog LOGWARN = false ∧ l.toLog LOGINFO = false ∧ l.toLog LOGDEBUG = false ∧
          l.toLog LOGTRACE = false ∧ l.toLog LOGERR = true ∧ l.toLog LOGFATAL = true) := by
  refine ⟨toLog_true_iff l lvl, ?_⟩
  intro h2
  simp [Log.toLog, h2, LOGERR, LOGWARN, LOGINFO, LOGDEBUG, LOGTRACE, LOGFATAL]

theorem toLog_iff_le_threshold_witness :
    (sampleLog.toLog LOGWARN = true ↔ LOGWARN ≤ sampleLog.level) ∧
      (sampleLog.level = LOGERR →
        sampleLog.toLog LOGWARN = false ∧ sampleLog.toLog LOGINFO = false ∧
          sampleLog.toLog LOGDEBUG = false ∧ sampleLog.toLog LOGTRACE = false ∧
          sampleLog.toLog LOGERR = true ∧ sampleLog.toLog LOGFATAL = true) :=
  toLog_iff_le_threshold sampleLog LOGWARN (by decide) (by decide)

/-! ## Construction from the recognized steps -/

/-- C2: for every list of recognized steps, `NewLog` returns an error exactly when the list
holds a `WithLevel x` with `x` outside `[1,6]`; an error it returns matches
`ErrInvalidLogLevel` under `errors.Is` and comes with a `nil` logger; and when every
`WithLevel` argument lies in `[1,6]` the call succeeds with a logger and a `nil` error. -/
theorem NewLog_fails_iff_invalid_level {σ : Type} (steps : List Step) (s : σ) :
    ((NewLog (steps.map Step.cfg) s).1.2 ≠ none ↔
        ∃ x, Step.withLevel x ∈ steps ∧ ¬(1 ≤ x ∧ x ≤ 6)) ∧
      (∀ e, (NewLog (steps.map Step.cfg) s).1.2 = some e →
        errorsIs e ErrInvalidLogLevel = true ∧ (NewLog (steps.map Step.cfg) s).1.1 = none) ∧
      ((∀ x, Step.withLevel x ∈ steps → 1 ≤ x ∧ x ≤ 6) →
        ∃ l, (NewLog (steps.map Step.cfg) s).1 = (some l, none)) := by
  rcases steps_valid_or_bad steps with hok | hbad
  · have hrun := loop_steps_ok steps defaultLog s hok
    refine ⟨?_, ?_, ?_⟩
    · constructor
      · intro hne
        exact absurd (by simp [NewLog, hrun]) hne
      · rintro ⟨x, hx, hout⟩
        exact absurd ((isValid_iff x).mp (hok x hx)) hout
    · intro e he
      simp [NewLog, hrun] at he
    · intro _
      unfold NewLog
      rw [hrun]
      exact ⟨_, rfl⟩
  · have hrun := loop_steps_bad steps defaultLog s hbad
    obtain ⟨x, hx, hxbad⟩ := hbad
    have hout : ¬(1 ≤ x ∧ x ≤ 6) := by
      intro hin
      rw [(isValid_iff x).mpr hin] at hxbad
      cases hxbad
    refine ⟨?_, ?_, ?_⟩
    · constructor
      · intro _
        exact ⟨x, hx, hout⟩
      · intro _
        simp [NewLog, hrun]
    · intro e he
      simp only [NewLog, hrun, Option.some.injEq] at he
      subst he
      exact ⟨errorsIs_join_right ErrLog ErrInvalidLogLevel, by simp [NewLog, hrun]⟩
    · intro hall
      exact absurd (hall x hx) hout

/-! ## The fatal level -/

/-- C3: for every logger (any threshold, any annotation mode), every result of the caller
lookup and of the sink's `Write` and every argument list, `Fatal` and `Fatalf` end in a
panic whose value is `ErrLogFatal`; they never return and never panic with another value. -/
theorem Fatal_Fatalf_panic_ErrLogFatal (l : Log) (env : Env) (fmtstr : GoString)
    (params : List Operand) (w : World) :
    (l.Fatal env params w).2 = Outcome.panicked (Panic.value ErrLogFatal) ∧
      (l.Fatalf env fmtstr params w).2 = Outcome.panicked (Panic.value ErrLogFatal) := by
  constructor
  · unfold Log.Fatal
    rw [thenPanic_of_returned _ _ (log_returns l env LOGFATAL params w)]
  · unfold Log.Fatalf
    rw [thenPanic_of_returned _ _ (logf_returns l env LOGFATAL fmtstr params w)]

/-! ## Suppressed and emitted messages -/

/-- Calls that are all below the threshold change nothing. -/
lemma calls_suppressed (l : Log) (cs : List Call) (w : World)
    (h : ∀ c ∈ cs, l.level < c.lvl) : l.calls cs w = (w, Outcome.returned) := by
  induction cs with
  | nil => rfl
  | cons c cs ih =>
    have hc : l.level < c.lvl := h c (List.mem_cons_self _ _)
    have hcall : l.call c w = (w, Outcome.returned) := by
      cases c with
      | log env lvl params => exact log_suppressed l env lvl params w hc
      | logf env lvl fmtstr params => exact logf_suppressed l env lvl fmtstr params w hc
    simp only [Log.calls, hcall]
    exact ih fun c1 hc1 => h c1 (List.mem_cons_of_mem _ hc1)

/-- C4: for a logger with threshold `L` and a level `lvl > L`, the message form and the
formatted form return with the world as it was: no `Write` on any sink and no diagnostic
line. Hence after any sequence of suppressed calls started with nothing written, nothing
has been written to the sink and no diagnostic line has been printed. -/
theorem suppressed_call_touches_nothing (l : Log) (lvl : Nat) (h : l.level < lvl)
    (env : Env) (fmtstr : GoString) (params : List Operand) (w : World)
    (cs : List Call) (hcs : ∀ c ∈ cs, l.level < c.lvl) :
    l.log env lvl params w = (w, Outcome.returned) ∧
      l.logf env lvl fmtstr params w = (w, Outcome.returned) ∧
      l.calls cs w = (w, Outcome.returned) ∧
      written l.fd (l.calls cs []).1 = [] ∧ notes (l.calls cs []).1 = [] := by
  refine ⟨log_suppressed l env lvl params w h, logf_suppressed l env lvl fmtstr params w h,
    calls_suppressed l cs w hcs, ?_, ?_⟩
  · rw [calls_suppressed l cs [] hcs]
    rfl
  · rw [calls_suppressed l cs [] hcs]
    rfl

theorem suppressed_call_touches_nothing_witness :
    sampleLog.log sampleEnv LOGINFO [Operand.string (str "up")] [] = ([], Outcome.returned) ∧
      sampleLog.logf sampleEnv LOGINFO (str "up") [Operand.string (str "up")] [] =
        ([], Outcome.returned) ∧
      sampleLog.calls sampleCalls [] = ([], Outcome.returned) ∧
      written sampleLog.fd (sampleLog.calls sampleCalls []).1 = [] ∧
      notes (sampleLog.calls sampleCalls []).1 = [] :=
  suppressed_call_touches_nothing sampleLog LOGINFO (by decide) sampleEnv (str "up")
    [Operand.string (str "up")] [] sampleCalls
    (by simp [sampleCalls, Call.lvl, sampleLog, LOGERR, LOGWARN, LOGTRACE])

/-- C5: for every logger (any annotation mode), every level `lvl ≤ threshold` and every
string `s`, the message form called with `s` calls `Write` on the sink once, with a byte
string that has `s` as a contiguous part. -/
theorem emitted_message_contains_body (l : Log) (env : Env) (lvl : Nat) (s : GoString)
    (w : World) (h : lvl ≤ l.level) :
    ∃ p : GoString,
      written l.fd (l.log env lvl [Operand.string s] w).1 = written l.fd w ++ [p] ∧
        s <:+: p := by
  rw [log_emitted l env lvl _ w h]
  refine ⟨renderedLine l env lvl (Sprintln [Operand.string s]),
    (logWrite_written l env lvl _ w).2, ?_⟩
  obtain ⟨loc, hloc⟩ := renderedLine_shape l env lvl (Sprintln [Operand.string s])
  rw [hloc]
  exact ⟨env.now ++ str " |" ++ lvlStr lvl ++ str "| " ++ loc, str "\n",
    by simp [Sprintln, spaced, Operand.text, List.append_assoc]⟩

theorem emitted_message_contains_body_witness :
    ∃ p : GoString,
      written sampleLog.fd
          (sampleLog.Err sampleEnv [Operand.string (str "testing 12344321")] []).1 =
        written sampleLog.fd [] ++ [p] ∧ str "testing 12344321" <:+: p :=
  emitted_message_contains_body sampleLog sampleEnv LOGERR (str "testing 12344321") []
    (by decide)

/-! ## Construction from arbitrary steps -/

/-- C6: for arbitrary configuration steps, when the steps of `pre` all return `nil`
(construction from `pre` alone succeeds, with logger `l1` and ambient state `s1`) and the
next step `f` returns the error `e`, `NewLog` returns a `nil` logger and
`errors.Join(ErrLog, e)`, an error that matches both `ErrLog` and `e`; whatever steps
`post` follow, the result is the same and the ambient state is the one `f` left: no step
of `post` is applied. -/
theorem NewLog_first_error_aborts {σ : Type} (pre post : List (CfgFunc σ)) (f : CfgFunc σ)
    (s s1 s2 : σ) (l1 l2 : Log) (e : GoError)
    (hpre : NewLog pre s = ((some l1, none), s1)) (hf : f l1 s1 = (l2, s2, some e)) :
    NewLog (pre ++ f :: post) s = ((none, some (errorsJoin ErrLog e)), s2) ∧
      NewLog (pre ++ f :: post) s = NewLog (pre ++ [f]) s ∧
      errorsIs (errorsJoin ErrLog e) ErrLog = true ∧
      errorsIs (errorsJoin ErrLog e) e = true := by
  have h1 : ∀ rest : List (CfgFunc σ),
      NewLog (pre ++ f :: rest) s = ((none, some (errorsJoin ErrLog e)), s2) := by
    intro rest
    unfold NewLog at hpre ⊢
    rw [loop_append pre (f :: rest) defaultLog l1 s s1 hpre]
    exact loop_cons_error f rest l1 l2 s1 s2 e hf
  exact ⟨h1 post, by rw [h1 post, h1 []], errorsIs_join_left ErrLog e,
    errorsIs_join_right ErrLog e⟩

theorem NewLog_first_error_aborts_witness :
    NewLog ([countingStep] ++ WithLevel 7 :: [countingStep, countingStep]) 0 =
        ((none, some (errorsJoin ErrLog ErrInvalidLogLevel)), 1) ∧
      NewLog ([countingStep] ++ WithLevel 7 :: [countingStep, countingStep]) 0 =
        NewLog ([countingStep] ++ [WithLevel 7]) 0 ∧
      errorsIs (errorsJoin ErrLog ErrInvalidLogLevel) ErrLog = true ∧
      errorsIs (errorsJoin ErrLog ErrInvalidLogLevel) ErrInvalidLogLevel = true :=
  NewLog_first_error_aborts [countingStep] [countingStep, countingStep] (WithLevel 7)
    0 1 1 defaultLog defaultLog ErrInvalidLogLevel rfl rfl

/-! ## Last write wins, defaults, valid threshold -/

/-- C7: for every list of recognized steps whose `WithLevel` arguments are valid, `NewLog`
succeeds and each field of the logger is the value named by the last step of the list
aimed at that field, or the default (standard error, `LOGINFO`, file name only) when no
step is aimed at it. So `[WithFileName, WithFilePath]` gives the full-path mode and
`[WithLevel a, WithLevel b]` gives threshold `b`. -/
theorem NewLog_last_write_wins {σ : Type} (steps : List Step) (s : σ)
    (h : ∀ x, Step.withLevel x ∈ steps → isValid x = true) :
    NewLog (steps.map Step.cfg) s =
        ((some { init := false, fd := (lastWriter steps).getD Writer.stderr,
                 level := (lastLevel steps).getD LOGINFO,
                 fNameMode := (lastMode steps).getD FILENAME_MODE_FILEONLY }, none), s) ∧
      (NewLog [WithFileName, WithFilePath] s).1 =
        (some { defaultLog with fNameMode := FILENAME_MODE_FILEPATH }, none) ∧
      (∀ a b, isValid a = true → isValid b = true →
        (NewLog [WithLevel a, WithLevel b] s).1 =
          (some { defaultLog with level := b }, none)) := by
  refine ⟨loop_steps_ok steps defaultLog s h, rfl, ?_⟩
  intro a b ha hb
  simp [NewLog, NewLog.loop, WithLevel, ha, hb]

theorem NewLog_last_write_wins_witness :
    NewLog ([Step.withLevel 5, Step.withFilePath, Step.withWriter (Writer.sink 1),
          Step.withLevel 2, Step.withFileName, Step.withWriter (Writer.sink 0)].map
          Step.cfg) () =
      ((some sampleLog, none), ()) :=
  (NewLog_last_write_wins [Step.withLevel 5, Step.withFilePath, Step.withWriter (Writer.sink 1),
    Step.withLevel 2, Step.withFileName, Step.withWriter (Writer.sink 0)] ()
    (by simp [isValid, LOGFATAL, LOGTRACE])).1

/-- C8: `NewLog` without configuration steps succeeds; the logger it returns writes to the
standard error stream, has threshold `LOGINFO` (4) and the file-name-only annotation mode. -/
theorem NewLog_defaults {σ : Type} (s : σ) :
    ∃ l : Log, NewLog ([] : List (CfgFunc σ)) s = ((some l, none), s) ∧
      l.fd = Writer.stderr ∧ l.level = LOGINFO ∧ l.level = 4 ∧
      l.fNameMode = FILENAME_MODE_FILEONLY :=
  ⟨defaultLog, rfl, rfl, rfl, rfl, rfl⟩

/-- C9: a logger returned by `NewLog` from any list of recognized steps has its threshold
in the closed range `[1,6]`. -/
theorem NewLog_threshold_in_range {σ : Type} (steps : List Step) (s s1 : σ) (l : Log)
    (e : Option GoError) (h : NewLog (steps.map Step.cfg) s = ((some l, e), s1)) :
    1 ≤ l.level ∧ l.level ≤ 6 :=
  (isValid_iff l.level).mp (NewLog_level_valid steps s s1 l e h)

theorem NewLog_threshold_in_range_witness :
    1 ≤ ({ defaultLog with fd := Writer.sink 3, level := 6 } : Log).level ∧
      ({ defaultLog with fd := Writer.sink 3, level := 6 } : Log).level ≤ 6 :=
  NewLog_threshold_in_range [Step.withLevel 1, Step.withWriter (Writer.sink 3),
    Step.withLevel 6] () () { defaultLog with fd := Writer.sink 3, level := 6 } none rfl

/-! ## Fatal logs and aborts -/

lemma fatal_tag (now : GoString) :
    now ++ str " |" ++ lvlStr LOGFATAL ++ str "| " = now ++ str " |FATAL| " := by
  have h : str " |" ++ lvlStr LOGFATAL ++ str "| " = str " |FATAL| " := by decide
  rw [← h]
  simp [List.append_assoc]

/-- C10: for a logger returned by `NewLog` from recognized steps, `Fatal` and `Fatalf` are
never suppressed: each calls `Write` on the sink once, with a line that starts with the
time stamp followed by ` |FATAL| ` and ends with the message, and then panics with
`ErrLogFatal`, whatever the `Write` returned. -/
theorem Fatal_logs_then_panics {σ : Type} (steps : List Step) (s s1 : σ) (l : Log)
    (e : Option GoError) (h : NewLog (steps.map Step.cfg) s = ((some l, e), s1))
    (env : Env) (fmtstr : GoString) (params : List Operand) (w : World) :
    (∃ loc : GoString,
        written l.fd (l.Fatal env params w).1 =
          written l.fd w ++ [env.now ++ str " |FATAL| " ++ loc ++ Sprintln params]) ∧
      (l.Fatal env params w).2 = Outcome.panicked (Panic.value ErrLogFatal) ∧
      (∃ loc : GoString,
        written l.fd (l.Fatalf env fmtstr params w).1 =
          written l.fd w ++
            [env.now ++ str " |FATAL| " ++ loc ++ Sprintf env.verbs fmtstr params]) ∧
      (l.Fatalf env fmtstr params w).2 = Outcome.panicked (Panic.value ErrLogFatal) := by
  have hlvl : LOGFATAL ≤ l.level :=
    ((isValid_iff l.level).mp (NewLog_level_valid steps s s1 l e h)).1
  have key : ∀ msg : GoString, ∃ loc : GoString,
      written l.fd (l.logWrite env LOGFATAL msg w).1 =
        written l.fd w ++ [env.now ++ str " |FATAL| " ++ loc ++ msg] := by
    intro msg
    obtain ⟨loc, hloc⟩ := renderedLine_shape l env LOGFATAL msg
    refine ⟨loc, ?_⟩
    rw [(logWrite_written l env LOGFATAL msg w).2, hloc, fatal_tag]
  refine ⟨?_, ?_, ?_, ?_⟩
  · unfold Log.Fatal
    rw [thenPanic_of_returned _ _ (log_returns l env LOGFATAL params w),
      log_emitted l env LOGFATAL params w hlvl]
    exact key _
  · unfold Log.Fatal
    rw [thenPanic_of_returned _ _ (log_returns l env LOGFATAL params w)]
  · unfold Log.Fatalf
    rw [thenPanic_of_returned _ _ (logf_returns l env LOGFATAL fmtstr params w),
      logf_emitted l env LOGFATAL fmtstr params w hlvl]
    exact key _
  · unfold Log.Fatalf
    rw [thenPanic_of_returned _ _ (logf_returns l env LOGFATAL fmtstr params w)]

theorem Fatal_logs_then_panics_witness :
    (sampleLog.Fatal { sampleEnv with writeN := 0, writeErr := some ErrLog }
        [Operand.string (str "testing log fatal")] []).2 =
      Outcome.panicked (Panic.value ErrLogFatal) :=
  (Fatal_logs_then_panics [Step.withWriter (Writer.sink 0), Step.withLevel LOGERR] () ()
    sampleLog none rfl { sampleEnv with writeN := 0, writeErr := some ErrLog }
    (str "testing log fatal") [Operand.string (str "testing log fatal")] []).2.1

/-! ## Lemmas on the writes and the diagnostic lines of `logWrite` -/

lemma allWrites_append (a b : World) : allWrites (a ++ b) = allWrites a ++ allWrites b := by
  induction a with
  | nil => rfl
  | cons e rest ih => cases e <;> simp [allWrites, ih]

lemma notes_append (a b : World) : notes (a ++ b) = notes a ++ notes b := by
  induction a with
  | nil => rfl
  | cons e rest ih => cases e <;> simp [notes, ih]

lemma allWrites_callerNote (ok : Bool) (w : World) :
    allWrites (callerNote ok w) = allWrites w := by
  cases ok <;> simp [callerNote, allWrites_append, allWrites]

lemma notes_callerNote (ok : Bool) (w : World) :
    notes (callerNote ok w) = notes w ++ (if ok = false then [callerNoteLine] else []) := by
  cases ok <;> simp [callerNote, notes_append, notes, callerNoteLine]

lemma allWrites_writeStep (l : Log) (env : Env) (log : GoString) (w : World) :
    allWrites (writeStep l env log w) = allWrites w ++ [(l.fd, log)] := by
  unfold writeStep
  simp only
  split_ifs <;> simp [allWrites_append, allWrites]

lemma notes_writeStep (l : Log) (env : Env) (log : GoString) (w : World) :
    notes (writeStep l env log w) =
      notes w ++ (if env.writeErr ≠ none then [writeErrNoteLine] else []) ++
        (if env.writeN ≠ (log.length : Int) then
          [shortWriteNoteLine log.length env.writeN] else []) := by
  unfold writeStep
  simp only
  split_ifs <;> simp [notes_append, notes, writeErrNoteLine, shortWriteNoteLine]

/-- Over all sinks, `logWrite` makes one `Write` call: on the logger's sink, with
`renderedLine`. -/
lemma logWrite_allWrites (l : Log) (env : Env) (lvl : Nat) (msg : GoString) (w : World) :
    allWrites (l.logWrite env lvl msg w).1 =
      allWrites w ++ [(l.fd, renderedLine l env lvl msg)] := by
  unfold Log.logWrite renderedLine
  simp only [FILENAME_MODE_NONE, FILENAME_MODE_FILEONLY, FILENAME_MODE_FILEPATH]
  by_cases h0 : l.fNameMode = 0
  · simp [h0, allWrites_writeStep]
  · by_cases h1 : l.fNameMode = 1
    · simp [h1, sliceFrom_LastIndex, allWrites_writeStep, allWrites_callerNote]
    · by_cases h2 : l.fNameMode = 2
      · simp [h2, allWrites_writeStep, allWrites_callerNote]
      · simp [h0, h1, h2, allWrites_writeStep]

/-- The diagnostic lines `logWrite` prints are those of `diagnostics`, in that order. -/
lemma logWrite_notes (l : Log) (env : Env) (lvl : Nat) (msg : GoString) (w : World) :
    notes (l.logWrite env lvl msg w).1 = notes w ++ diagnostics l env lvl msg := by
  unfold Log.logWrite diagnostics renderedLine
  simp only [FILENAME_MODE_NONE, FILENAME_MODE_FILEONLY, FILENAME_MODE_FILEPATH]
  by_cases h0 : l.fNameMode = 0
  · simp [h0, notes_writeStep]
  · by_cases h1 : l.fNameMode = 1
    · simp [h1, sliceFrom_LastIndex, notes_writeStep, notes_callerNote, List.append_assoc]
    · by_cases h2 : l.fNameMode = 2
      · simp [h2, notes_writeStep, notes_callerNote, List.append_assoc]
      · simp [h0, h1, h2, notes_writeStep]

/-- The rendered line is the time stamp, the level tag, the location part and the message. -/
lemma renderedLine_eq (l : Log) (env : Env) (lvl : Nat) (msg : GoString) :
    renderedLine l env lvl msg =
      env.now ++ str " |" ++ lvlStr lvl ++ str "| " ++ locationPart l env ++ msg := by
  unfold renderedLine locationPart locatedLine plainLine location baseName
  split_ifs <;> simp [List.append_assoc]

lemma shortWriteNoteLine_take (a b : Int) :
    (shortWriteNoteLine a b).take 10 = str "log: err u" := by
  have h : str "log: err unexpected bytes written:" =
      str "log: err u" ++ str "nexpected bytes written:" := by decide
  have h2 : shortWriteNoteLine a b = str "log: err u" ++
      (str "nexpected bytes written:" ++ str " " ++ (decimal a ++ str " " ++ decimal b) ++
        str "\n") := by
    simp [shortWriteNoteLine, Sprintln, spaced, Operand.text, h, List.append_assoc]
  rw [h2]
  exact List.take_left' (by decide)

lemma callerNoteLine_ne_writeErrNoteLine : callerNoteLine ≠ writeErrNoteLine := by decide

lemma callerNoteLine_ne_short (a b : Int) : callerNoteLine ≠ shortWriteNoteLine a b := by
  intro h
  have h2 := congrArg (List.take 10) h
  rw [shortWriteNoteLine_take] at h2
  revert h2
  decide

lemma writeErrNoteLine_ne_short (a b : Int) : writeErrNoteLine ≠ shortWriteNoteLine a b := by
  intro h
  have h2 := congrArg (List.take 10) h
  rw [shortWriteNoteLine_take] at h2
  revert h2
  decide

/-- The caller-lookup line is among the diagnostics exactly when the logger is in one of the
two annotating modes and the lookup failed. -/
lemma callerNoteLine_mem (l : Log) (env : Env) (lvl : Nat) (msg : GoString) :
    callerNoteLine ∈ diagnostics l env lvl msg ↔
      (l.fNameMode = FILENAME_MODE_FILEONLY ∨ l.fNameMode = FILENAME_MODE_FILEPATH) ∧
        env.callerOk = false := by
  unfold diagnostics
  simp only [List.mem_append]
  split_ifs <;>
    simp_all [callerNoteLine_ne_writeErrNoteLine, callerNoteLine_ne_short]

/-- The write-error line is among the diagnostics exactly when `Write` returned an error. -/
lemma writeErrNoteLine_mem (l : Log) (env : Env) (lvl : Nat) (msg : GoString) :
    writeErrNoteLine ∈ diagnostics l env lvl msg ↔ env.writeErr ≠ none := by
  unfold diagnostics
  simp only [List.mem_append]
  split_ifs <;>
    simp_all [callerNoteLine_ne_writeErrNoteLine.symm, writeErrNoteLine_ne_short]

/-- The short-write line is among the diagnostics exactly when `n` differs from the length
of the line. -/
lemma shortWriteNoteLine_mem (l : Log) (env : Env) (lvl : Nat) (msg : GoString) :
    shortWriteNoteLine (renderedLine l env lvl msg).length env.writeN ∈
        diagnostics l env lvl msg ↔
      env.writeN ≠ ((renderedLine l env lvl msg).length : Int) := by
  unfold diagnostics
  simp only [List.mem_append]
  split_ifs <;>
    simp_all [(callerNoteLine_ne_short _ _).symm, (writeErrNoteLine_ne_short _ _).symm]

/-! ## Lemmas on the base name of a path -/

lemma LastIndex_neg (s : GoString) (c : Nat) (h : LastIndex s c < 0) : c ∉ s := by
  induction s with
  | nil => simp
  | cons b rest ih =>
    simp only [LastIndex] at h
    split_ifs at h with h1 h2
    · omega
    · omega
    · simp only [List.mem_cons, not_or]
      exact ⟨fun hc => h2 hc.symm, ih (by omega)⟩

lemma LastIndex_nonneg (s : GoString) (c : Nat) (h : 0 ≤ LastIndex s c) : c ∈ s := by
  induction s with
  | nil => simp [LastIndex] at h
  | cons b rest ih =>
    simp only [LastIndex] at h
    split_ifs at h with h1 h2
    · exact List.mem_cons_of_mem _ (ih h1)
    · rw [h2]
      exact List.mem_cons_self _ _
    · omega

lemma baseName_nil : baseName [] = [] := rfl

/-- How `baseName` goes through a path byte by byte. -/
lemma baseName_cons (b : Nat) (rest : GoString) :
    baseName (b :: rest) =
      if 0 ≤ LastIndex rest 47 then baseName rest
      else if b = 47 then rest else b :: rest := by
  unfold baseName
  simp only [LastIndex]
  have hb := LastIndex_bounds rest 47
  split_ifs with h1 h2
  · have e : (LastIndex rest 47 + 1 + 1).toNat = (LastIndex rest 47 + 1).toNat + 1 := by omega
    rw [e]
    rfl
  · rfl
  · rfl

/-- The base name holds no slash. -/
lemma baseName_no_slash (f : GoString) : 47 ∉ baseName f := by
  induction f with
  | nil => simp [baseName_nil]
  | cons b rest ih =>
    rw [baseName_cons]
    split_ifs with h1 h2
    · exact ih
    · exact LastIndex_neg rest 47 (by omega)
    · simp only [List.mem_cons, not_or]
      exact ⟨fun hc => h2 hc.symm, LastIndex_neg rest 47 (by omega)⟩

/-- A path is its directory part, empty or ending in a slash, followed by its base name. -/
lemma baseName_split (f : GoString) :
    ∃ p : GoString, f = p ++ baseName f ∧ (p = [] ∨ p.getLast? = some 47) := by
  induction f with
  | nil => exact ⟨[], rfl, Or.inl rfl⟩
  | cons b rest ih =>
    rw [baseName_cons]
    split_ifs with h1 h2
    · obtain ⟨p, hp, hlast⟩ := ih
      have hmem : 47 ∈ rest := LastIndex_nonneg rest 47 h1
      have hne : p ≠ [] := by
        intro hnil
        rw [hnil, List.nil_append] at hp
        rw [hp] at hmem
        exact baseName_no_slash rest hmem
      refine ⟨b :: p, by rw [List.cons_append, ← hp], Or.inr ?_⟩
      rcases hlast with hnil | hl
      · exact absurd hnil hne
      · cases p with
        | nil => exact absurd rfl hne
        | cons a q => simpa [List.getLast?_cons_cons] using hl
    · exact ⟨[b], rfl, Or.inr (by simp [h2])⟩
    · exact ⟨[], rfl, Or.inl rfl⟩

/-- A path without a slash is its own base name. -/
lemma baseName_of_no_slash (f : GoString) (h : 47 ∉ f) : baseName f = f := by
  have hneg : ¬ 0 ≤ LastIndex f 47 := fun hge => h (LastIndex_nonneg f 47 hge)
  have hb := LastIndex_bounds f 47
  have e : (LastIndex f 47 + 1).toNat = 0 := by omega
  unfold baseName
  rw [e]
  rfl

/-! ## Lemmas on level names and annotation modes -/

lemma lvlStr_of_not_valid (lvl : Nat) (h : ¬(1 ≤ lvl ∧ lvl ≤ 6)) : lvlStr lvl = [] := by
  have h1 : lvl ≠ 1 := by omega
  have h2 : lvl ≠ 2 := by omega
  have h3 : lvl ≠ 3 := by omega
  have h4 : lvl ≠ 4 := by omega
  have h5 : lvl ≠ 5 := by omega
  have h6 : lvl ≠ 6 := by omega
  simp only [lvlStr, LOGFATAL, LOGERR, LOGWARN, LOGINFO, LOGDEBUG, LOGTRACE, h1, h2, h3, h4,
    h5, h6, if_false]
  rfl

lemma lvlStr_of_valid (lvl : Nat) (h : 1 ≤ lvl ∧ lvl ≤ 6) : lvlStr lvl ≠ [] := by
  obtain ⟨h1, h6⟩ := h
  interval_cases lvl <;> decide

lemma lvlStr_injective (a b : Nat) (ha : 1 ≤ a ∧ a ≤ 6) (hb : 1 ≤ b ∧ b ≤ 6)
    (h : lvlStr a = lvlStr b) : a = b := by
  obtain ⟨ha1, ha6⟩ := ha
  obtain ⟨hb1, hb6⟩ := hb
  interval_cases a <;> interval_cases b <;> first | rfl | (revert h; decide)

lemma lastMode_values (steps : List Step) (m : Nat) (h : lastMode steps = some m) :
    m = FILENAME_MODE_FILEONLY ∨ m = FILENAME_MODE_FILEPATH := by
  induction steps with
  | nil => simp [lastMode] at h
  | cons st steps ih =>
    rw [lastMode_cons] at h
    cases hl : lastMode steps with
    | some y =>
      rw [hl] at h
      simp only [Option.or_some, Option.some.injEq] at h
      subst h
      exact ih hl
    | none =>
      rw [hl] at h
      cases st <;> simp at h
      · exact Or.inl h.symm
      · exact Or.inr h.symm

/-- A logger built from recognized steps is in one of the two annotating modes. -/
lemma NewLog_mode {σ : Type} (steps : List Step) (s s1 : σ) (l : Log)
    (e : Option GoError) (h : NewLog (steps.map Step.cfg) s = ((some l, e), s1)) :
    l.fNameMode = FILENAME_MODE_FILEONLY ∨ l.fNameMode = FILENAME_MODE_FILEPATH := by
  rcases steps_valid_or_bad steps with hok | hbad
  · unfold NewLog at h
    rw [loop_steps_ok steps defaultLog s hok] at h
    simp only [Prod.mk.injEq, Option.some.injEq] at h
    obtain ⟨⟨h1, _⟩, _⟩ := h
    subst h1
    cases hl : lastMode steps with
    | none => exact Or.inl rfl
    | some m => simpa using lastMode_values steps m hl
  · unfold NewLog at h
    rw [loop_steps_bad steps defaultLog s hbad] at h
    simp at h

/-! ## The shape of an emitted line -/

/-- Whatever the mode, what precedes the message in a line ends with a space. -/
lemma line_head_getLast (l : Log) (env : Env) (lvl : Nat) :
    (env.now ++ str " |" ++ lvlStr lvl ++ str "| " ++ locationPart l env).getLast? =
      some 32 := by
  have h1 : ∀ x : GoString, (x ++ str "| ").getLast? = some 32 := by
    intro x
    rw [show str "| " = [124] ++ [32] by decide, ← List.append_assoc]
    exact List.getLast?_concat _
  have h2 : ∀ x : GoString, (x ++ str ": ").getLast? = some 32 := by
    intro x
    rw [show str ": " = [58] ++ [32] by decide, ← List.append_assoc]
    exact List.getLast?_concat _
  unfold locationPart location
  split_ifs
  · simp only [← List.append_assoc]
    exact h2 _
  · simp only [← List.append_assoc]
    exact h2 _
  · rw [List.append_nil]
    exact h1 _

/-- C11 (as stated, refuted): `Errf("testing log fatal")` is emitted by a logger with threshold
`LOGERR`, whatever the verb interpreter of `Sprintf` does, and the line written to the sink
does not end with a newline. -/
theorem formatted_line_lacks_newline :
    (∀ verbs : GoString → List Operand → GoString,
      allWrites (sampleLog.Errf { sampleEnv with verbs := verbs }
          (str "testing log fatal") [] []).1 =
        [(Writer.sink 0, str "2024-01-02 03:04:05 |ERR| log_test.go:48: testing log fatal")]) ∧
      (str "2024-01-02 03:04:05 |ERR| log_test.go:48: testing log fatal").getLast? ≠
        some 10 := by
  refine ⟨fun verbs => ?_, by decide⟩
  rfl

/-- C11 (amended): for every emitted message the byte string written to the sink is
the time stamp, ` |LEVEL| `, the location part of the mode (empty outside the two
annotating modes) and the message. For the message form the message is `Sprintln` of the
operands, so the line ends with a newline; for the formatted form it is `Sprintf` of the
template and operands with nothing appended, so the line ends with a newline exactly when
that text does. -/
theorem emitted_line_shape (l : Log) (env : Env) (lvl : Nat) (fmtstr : GoString)
    (params : List Operand) (w : World) (h : lvl ≤ l.level) :
    allWrites (l.log env lvl params w).1 =
        allWrites w ++ [(l.fd, env.now ++ str " |" ++ lvlStr lvl ++ str "| " ++
          locationPart l env ++ (spaced params ++ str "\n"))] ∧
      (env.now ++ str " |" ++ lvlStr lvl ++ str "| " ++ locationPart l env ++
          (spaced params ++ str "\n")).getLast? = some 10 ∧
      allWrites (l.logf env lvl fmtstr params w).1 =
        allWrites w ++ [(l.fd, env.now ++ str " |" ++ lvlStr lvl ++ str "| " ++
          locationPart l env ++ Sprintf env.verbs fmtstr params)] ∧
      ((env.now ++ str " |" ++ lvlStr lvl ++ str "| " ++ locationPart l env ++
          Sprintf env.verbs fmtstr params).getLast? = some 10 ↔
        (Sprintf env.verbs fmtstr params).getLast? = some 10) := by
  refine ⟨?_, ?_, ?_, ?_⟩
  · rw [log_emitted l env lvl params w h, logWrite_allWrites, renderedLine_eq]
    rfl
  · rw [← List.append_assoc]
    exact List.getLast?_concat _
  · rw [logf_emitted l env lvl fmtstr params w h, logWrite_allWrites, renderedLine_eq]
  · cases hm : Sprintf env.verbs fmtstr params with
    | nil =>
      rw [List.append_nil, line_head_getLast]
      simp
    | cons a rest => rw [List.getLast?_append_of_ne_nil _ (List.cons_ne_nil a rest)]

theorem emitted_line_shape_witness :
    allWrites (sampleLog.Err sampleEnv [Operand.string (str "disk"), Operand.int 3] []).1 =
        [(Writer.sink 0, str "2024-01-02 03:04:05 |ERR| log_test.go:48: disk 3\n")] ∧
      allWrites (sampleLog.Errf sampleEnv (str "disk 3\n") [] []).1 =
        [(Writer.sink 0, str "2024-01-02 03:04:05 |ERR| log_test.go:48: disk 3\n")] :=
  have h := emitted_line_shape sampleLog sampleEnv LOGERR (str "disk 3\n")
    [Operand.string (str "disk"), Operand.int 3] [] (by decide)
  ⟨h.1.trans (by decide), h.2.2.1.trans (by decide)⟩

/-! ## File name only, full file path -/

/-- C12: in file-name-only mode, for every caller file `f`, line number, level and body,
the line written is time stamp, ` |LEVEL| `, `base:line: ` and the body, where `base` is
what stands in `f` after its last slash: `base` holds no slash, `f` is `p ++ base` with `p`
empty or ending in a slash, and `base` is all of `f` when `f` holds no slash. -/
theorem fileNameOnly_line (l : Log) (env : Env) (lvl : Nat) (msg : GoString) (w : World)
    (hmode : l.fNameMode = FILENAME_MODE_FILEONLY) :
    allWrites (l.logWrite env lvl msg w).1 =
        allWrites w ++ [(l.fd, env.now ++ str " |" ++ lvlStr lvl ++ str "| " ++
          baseName env.callerFile ++ str ":" ++ decimal env.callerLine ++ str ": " ++ msg)] ∧
      47 ∉ baseName env.callerFile ∧
      (∃ p : GoString, env.callerFile = p ++ baseName env.callerFile ∧
        (p = [] ∨ p.getLast? = some 47)) ∧
      (47 ∉ env.callerFile → baseName env.callerFile = env.callerFile) := by
  refine ⟨?_, baseName_no_slash _, baseName_split _, baseName_of_no_slash _⟩
  rw [logWrite_allWrites, renderedLine_eq]
  simp [locationPart, location, hmode, List.append_assoc]

theorem fileNameOnly_line_witness :
    allWrites (sampleLog.logWrite sampleEnv LOGERR (str "disk full\n") []).1 =
      [(Writer.sink 0, str "2024-01-02 03:04:05 |ERR| log_test.go:48: disk full\n")] :=
  (fileNameOnly_line sampleLog sampleEnv LOGERR (str "disk full\n") [] rfl).1.trans
    (by decide)

/-- C13: in full-path mode, for every caller file `f`, line number, level and body, the
line written is time stamp, ` |LEVEL| `, `f:line: ` and the body, with `f` as the lookup
returned it. The same call on the same logger in file-name-only mode writes the same line
without the directory part `p` of `f` (`f = p ++ base`, `p` empty or ending in a slash). -/
theorem fullFilePath_line (l : Log) (env : Env) (lvl : Nat) (msg : GoString) (w : World)
    (hmode : l.fNameMode = FILENAME_MODE_FILEPATH) :
    allWrites (l.logWrite env lvl msg w).1 =
        allWrites w ++ [(l.fd, env.now ++ str " |" ++ lvlStr lvl ++ str "| " ++
          env.callerFile ++ str ":" ++ decimal env.callerLine ++ str ": " ++ msg)] ∧
      ∃ p : GoString, env.callerFile = p ++ baseName env.callerFile ∧
        (p = [] ∨ p.getLast? = some 47) ∧
        renderedLine l env lvl msg =
          (env.now ++ str " |" ++ lvlStr lvl ++ str "| ") ++ p ++
            (baseName env.callerFile ++ str ":" ++ decimal env.callerLine ++ str ": " ++
              msg) ∧
        allWrites
            (Log.logWrite { l with fNameMode := FILENAME_MODE_FILEONLY } env lvl msg w).1 =
          allWrites w ++ [(l.fd, (env.now ++ str " |" ++ lvlStr lvl ++ str "| ") ++
            (baseName env.callerFile ++ str ":" ++ decimal env.callerLine ++ str ": " ++
              msg))] := by
  have hline : renderedLine l env lvl msg =
      env.now ++ str " |" ++ lvlStr lvl ++ str "| " ++ env.callerFile ++ str ":" ++
        decimal env.callerLine ++ str ": " ++ msg := by
    rw [renderedLine_eq]
    simp [locationPart, location, hmode, FILENAME_MODE_FILEPATH, FILENAME_MODE_FILEONLY,
      List.append_assoc]
  refine ⟨by rw [logWrite_allWrites, hline], ?_⟩
  obtain ⟨p, hp, hlast⟩ := baseName_split env.callerFile
  refine ⟨p, hp, hlast, ?_, ?_⟩
  · rw [hline]
    nth_rewrite 1 [hp]
    simp [List.append_assoc]
  · rw [logWrite_allWrites, renderedLine_eq]
    simp [locationPart, location, List.append_assoc]

theorem fullFilePath_line_witness :
    allWrites (pathLog.logWrite sampleEnv LOGERR (str "disk full\n") []).1 =
      [(Writer.sink 0,
        str "2024-01-02 03:04:05 |ERR| /home/u/log/log_test.go:48: disk full\n")] :=
  (fullFilePath_line pathLog sampleEnv LOGERR (str "disk full\n") [] rfl).1.trans
    (by decide)

/-! ## The write step -/

/-- C14: for every message handed to `logWrite` and every result `(n, err)` of the sink's
`Write`, `logWrite` returns without a panic having called `Write` once over all sinks, on
the logger's sink and with the whole rendered line; the line "log: err writing log" is
among the diagnostic lines it printed exactly when `err` is not `nil`; and the ten emit
methods below the fatal level return to their caller. -/
theorem write_once_and_return (l : Log) (env : Env) (lvl : Nat) (msg fmtstr : GoString)
    (params : List Operand) (w : World) :
    (l.logWrite env lvl msg w).2 = Outcome.returned ∧
      allWrites (l.logWrite env lvl msg w).1 =
        allWrites w ++ [(l.fd, renderedLine l env lvl msg)] ∧
      notes (l.logWrite env lvl msg w).1 = notes w ++ diagnostics l env lvl msg ∧
      (writeErrNoteLine ∈ diagnostics l env lvl msg ↔ env.writeErr ≠ none) ∧
      (l.Err env params w).2 = Outcome.returned ∧
      (l.Errf env fmtstr params w).2 = Outcome.returned ∧
      (l.Warn env params w).2 = Outcome.returned ∧
      (l.Warnf env fmtstr params w).2 = Outcome.returned ∧
      (l.Info env params w).2 = Outcome.returned ∧
      (l.Infof env fmtstr params w).2 = Outcome.returned ∧
      (l.Debug env params w).2 = Outcome.returned ∧
      (l.Debugf env fmtstr params w).2 = Outcome.returned ∧
      (l.Trace env params w).2 = Outcome.returned ∧
      (l.Tracef env fmtstr params w).2 = Outcome.returned :=
  ⟨(logWrite_written l env lvl msg w).1, logWrite_allWrites l env lvl msg w,
    logWrite_notes l env lvl msg w, writeErrNoteLine_mem l env lvl msg,
    log_returns l env LOGERR params w, logf_returns l env LOGERR fmtstr params w,
    log_returns l env LOGWARN params w, logf_returns l env LOGWARN fmtstr params w,
    log_returns l env LOGINFO params w, logf_returns l env LOGINFO fmtstr params w,
    log_returns l env LOGDEBUG params w, logf_returns l env LOGDEBUG fmtstr params w,
    log_returns l env LOGTRACE params w, logf_returns l env LOGTRACE fmtstr params w⟩

/-- C15: for every line handed to the sink and every result `(n, err)` of `Write`, the
short-write line, which carries the byte length of the rendered line and `n`, is among
the diagnostic lines printed exactly when `n` differs from that byte length, whatever
`err` is; a write that fails and reports such an `n` prints both lines. The length is
counted in bytes: a line of 44 characters, one of them of two bytes, written with `n = 44`
prints the short-write line with the numbers 45 and 44. -/
theorem short_write_note_iff (l : Log) (env : Env) (lvl : Nat) (msg : GoString) (w : World) :
    notes (l.logWrite env lvl msg w).1 = notes w ++ diagnostics l env lvl msg ∧
      (shortWriteNoteLine (renderedLine l env lvl msg).length env.writeN ∈
          diagnostics l env lvl msg ↔
        env.writeN ≠ ((renderedLine l env lvl msg).length : Int)) ∧
      (env.writeErr ≠ none → env.writeN ≠ ((renderedLine l env lvl msg).length : Int) →
        writeErrNoteLine ∈ diagnostics l env lvl msg ∧
          shortWriteNoteLine (renderedLine l env lvl msg).length env.writeN ∈
            diagnostics l env lvl msg) ∧
      notes (sampleLog.Err { sampleEnv with writeN := 44 } [Operand.string (str "é")] []).1 =
        [str "log: err unexpected bytes written: 45 44\n"] :=
  ⟨logWrite_notes l env lvl msg w, shortWriteNoteLine_mem l env lvl msg,
    fun herr hn => ⟨(writeErrNoteLine_mem l env lvl msg).mpr herr,
      (shortWriteNoteLine_mem l env lvl msg).mpr hn⟩,
    by decide⟩

/-! ## The caller lookup -/

/-- C16: in the two annotating modes, for every result `(file, line, ok)` of the caller
lookup, `logWrite` returns without a panic: the start `slashOffset+1` of the slice lies
between 0 and `len(file)`. It calls `Write` once, with the line rendered from the file
(its base name in file-name-only mode) and line number the lookup returned, and the line
"log: err getting caller" is among the diagnostic lines printed exactly when `ok` is
false. -/
theorem caller_lookup_never_aborts (l : Log) (env : Env) (lvl : Nat) (msg : GoString)
    (w : World)
    (hmode : l.fNameMode = FILENAME_MODE_FILEONLY ∨ l.fNameMode = FILENAME_MODE_FILEPATH) :
    (l.logWrite env lvl msg w).2 = Outcome.returned ∧
      (0 ≤ LastIndex env.callerFile 47 + 1 ∧
        LastIndex env.callerFile 47 + 1 ≤ (env.callerFile.length : Int)) ∧
      sliceFrom env.callerFile (LastIndex env.callerFile 47 + 1) =
        some (baseName env.callerFile) ∧
      allWrites (l.logWrite env lvl msg w).1 =
        allWrites w ++ [(l.fd, env.now ++ str " |" ++ lvlStr lvl ++ str "| " ++
          (if l.fNameMode = FILENAME_MODE_FILEONLY then baseName env.callerFile
            else env.callerFile) ++ str ":" ++ decimal env.callerLine ++ str ": " ++ msg)] ∧
      notes (l.logWrite env lvl msg w).1 = notes w ++ diagnostics l env lvl msg ∧
      (callerNoteLine ∈ diagnostics l env lvl msg ↔ env.callerOk = false) := by
  have hb := LastIndex_bounds env.callerFile 47
  refine ⟨(logWrite_written l env lvl msg w).1, ⟨by omega, by omega⟩,
    sliceFrom_LastIndex env.callerFile 47, ?_, logWrite_notes l env lvl msg w, ?_⟩
  · rw [logWrite_allWrites, renderedLine_eq]
    rcases hmode with h1 | h2
    · simp [locationPart, location, h1, List.append_assoc]
    · simp [locationPart, location, h2, FILENAME_MODE_FILEPATH, FILENAME_MODE_FILEONLY,
        List.append_assoc]
  · rw [callerNoteLine_mem]
    exact ⟨fun h => h.2, fun h => ⟨hmode, h⟩⟩

theorem caller_lookup_never_aborts_witness :
    (sampleLog.logWrite failingEnv LOGERR (str "disk full\n") []).2 = Outcome.returned ∧
      allWrites (sampleLog.logWrite failingEnv LOGERR (str "disk full\n") []).1 =
        [(Writer.sink 0, str "2024-01-02 03:04:05 |ERR| :0: disk full\n")] ∧
      callerNoteLine ∈ diagnostics sampleLog failingEnv LOGERR (str "disk full\n") :=
  have h := caller_lookup_never_aborts sampleLog failingEnv LOGERR (str "disk full\n") []
    (Or.inl rfl)
  ⟨h.1, h.2.2.2.1.trans (by decide), h.2.2.2.2.2.mpr rfl⟩

/-! ## Level names -/

/-- C17: `lvlStr` gives FATAL, ERR, WARN, INFO, DEBUG, TRACE for the levels 1 to 6 and the
empty string for every other value; so the name is not empty exactly for the valid levels
and distinct valid levels have distinct names. Each of the twelve emit methods either
writes nothing or writes one line whose level tag is the non-empty name of a valid level. -/
theorem lvlStr_table (l : Log) (env : Env) (fmtstr : GoString) (params : List Operand)
    (w : World) :
    (lvlStr 1 = str "FATAL" ∧ lvlStr 2 = str "ERR" ∧ lvlStr 3 = str "WARN" ∧
        lvlStr 4 = str "INFO" ∧ lvlStr 5 = str "DEBUG" ∧ lvlStr 6 = str "TRACE") ∧
      (∀ lvl, ¬(1 ≤ lvl ∧ lvl ≤ 6) → lvlStr lvl = []) ∧
      (∀ lvl, lvlStr lvl ≠ [] ↔ isValid lvl = true) ∧
      (∀ a b, isValid a = true → isValid b = true → lvlStr a = lvlStr b → a = b) ∧
      (∀ r ∈ [l.Fatal env params w, l.Fatalf env fmtstr params w, l.Err env params w,
          l.Errf env fmtstr params w, l.Warn env params w, l.Warnf env fmtstr params w,
          l.Info env params w, l.Infof env fmtstr params w, l.Debug env params w,
          l.Debugf env fmtstr params w, l.Trace env params w, l.Tracef env fmtstr params w],
        allWrites r.1 = allWrites w ∨
          ∃ lvl msg, isValid lvl = true ∧ lvlStr lvl ≠ [] ∧
            allWrites r.1 = allWrites w ++ [(l.fd, env.now ++ str " |" ++ lvlStr lvl ++
              str "| " ++ locationPart l env ++ msg)]) := by
  have hlog : ∀ lvl, isValid lvl = true → ∀ ps : List Operand,
      allWrites (l.log env lvl ps w).1 = allWrites w ∨
        ∃ k msg, isValid k = true ∧ lvlStr k ≠ [] ∧
          allWrites (l.log env lvl ps w).1 = allWrites w ++ [(l.fd, env.now ++ str " |" ++
            lvlStr k ++ str "| " ++ locationPart l env ++ msg)] := by
    intro lvl hv ps
    by_cases h : lvl ≤ l.level
    · right
      refine ⟨lvl, Sprintln ps, hv, lvlStr_of_valid lvl ((isValid_iff lvl).mp hv), ?_⟩
      rw [log_emitted l env lvl ps w h, logWrite_allWrites, renderedLine_eq]
    · left
      rw [log_suppressed l env lvl ps w (by omega)]
  have hlogf : ∀ lvl, isValid lvl = true → ∀ ps : List Operand,
      allWrites (l.logf env lvl fmtstr ps w).1 = allWrites w ∨
        ∃ k msg, isValid k = true ∧ lvlStr k ≠ [] ∧
          allWrites (l.logf env lvl fmtstr ps w).1 = allWrites w ++ [(l.fd, env.now ++
            str " |" ++ lvlStr k ++ str "| " ++ locationPart l env ++ msg)] := by
    intro lvl hv ps
    by_cases h : lvl ≤ l.level
    · right
      refine ⟨lvl, Sprintf env.verbs fmtstr ps, hv,
        lvlStr_of_valid lvl ((isValid_iff lvl).mp hv), ?_⟩
      rw [logf_emitted l env lvl fmtstr ps w h, logWrite_allWrites, renderedLine_eq]
    · left
      rw [logf_suppressed l env lvl fmtstr ps w (by omega)]
  have hFatal : (l.Fatal env params w).1 = (l.log env LOGFATAL params w).1 := by
    unfold Log.Fatal
    rw [thenPanic_of_returned _ _ (log_returns l env LOGFATAL params w)]
  have hFatalf : (l.Fatalf env fmtstr params w).1 = (l.logf env LOGFATAL fmtstr params w).1 := by
    unfold Log.Fatalf
    rw [thenPanic_of_returned _ _ (logf_returns l env LOGFATAL fmtstr params w)]
  refine ⟨by decide, lvlStr_of_not_valid, ?_, ?_, ?_⟩
  · intro lvl
    constructor
    · intro hne
      by_contra hv
      exact hne (lvlStr_of_not_valid lvl (fun hin => hv ((isValid_iff lvl).mpr hin)))
    · intro hv
      exact lvlStr_of_valid lvl ((isValid_iff lvl).mp hv)
  · intro a b ha hb hab
    exact lvlStr_injective a b ((isValid_iff a).mp ha) ((isValid_iff b).mp hb) hab
  · intro r hr
    simp only [List.mem_cons, List.mem_singleton, List.not_mem_nil, or_false] at hr
    rcases hr with rfl | rfl | rfl | rfl | rfl | rfl | rfl | rfl | rfl | rfl | rfl | rfl
    · rw [hFatal]
      exact hlog LOGFATAL (by decide) params
    · rw [hFatalf]
      exact hlogf LOGFATAL (by decide) params
    · exact hlog LOGERR (by decide) params
    · exact hlogf LOGERR (by decide) params
    · exact hlog LOGWARN (by decide) params
    · exact hlogf LOGWARN (by decide) params
    · exact hlog LOGINFO (by decide) params
    · exact hlogf LOGINFO (by decide) params
    · exact hlog LOGDEBUG (by decide) params
    · exact hlogf LOGDEBUG (by decide) params
    · exact hlog LOGTRACE (by decide) params
    · exact hlogf LOGTRACE (by decide) params

/-! ## Annotation modes -/

/-- C18: for every annotation mode other than file-name-only (1) and full-path (2), that
is 0 and every value from 3 on, `logWrite` does exactly what it does in mode 0: it writes
the line made of time stamp, ` |LEVEL| ` and body, without a location part and without a
caller lookup line among its diagnostics. -/
theorem unknown_mode_is_plain (l : Log) (env : Env) (lvl : Nat) (msg : GoString) (w : World)
    (h1 : l.fNameMode ≠ FILENAME_MODE_FILEONLY) (h2 : l.fNameMode ≠ FILENAME_MODE_FILEPATH) :
    l.logWrite env lvl msg w =
        Log.logWrite { l with fNameMode := FILENAME_MODE_NONE } env lvl msg w ∧
      allWrites (l.logWrite env lvl msg w).1 =
        allWrites w ++ [(l.fd, env.now ++ str " |" ++ lvlStr lvl ++ str "| " ++ msg)] ∧
      locationPart l env = [] ∧
      callerNoteLine ∉ diagnostics l env lvl msg := by
  have hloc : locationPart l env = [] := by simp [locationPart, h1, h2]
  refine ⟨?_, ?_, hloc, ?_⟩
  · unfold Log.logWrite
    simp only [FILENAME_MODE_NONE, FILENAME_MODE_FILEONLY, FILENAME_MODE_FILEPATH] at h1 h2 ⊢
    by_cases h0 : l.fNameMode = 0
    · simp [h0, writeStep]
    · simp [h0, h1, h2, writeStep]
  · rw [logWrite_allWrites, renderedLine_eq, hloc, List.append_nil]
  · rw [callerNoteLine_mem]
    rintro ⟨h | h, _⟩
    · exact h1 h
    · exact h2 h

theorem unknown_mode_is_plain_witness :
    oddLog.logWrite sampleEnv LOGERR (str "disk full\n") [] =
        Log.logWrite { oddLog with fNameMode := FILENAME_MODE_NONE } sampleEnv LOGERR
          (str "disk full\n") [] ∧
      allWrites (oddLog.logWrite sampleEnv LOGERR (str "disk full\n") []).1 =
        [(Writer.sink 0, str "2024-01-02 03:04:05 |ERR| disk full\n")] :=
  have h := unknown_mode_is_plain oddLog sampleEnv LOGERR (str "disk full\n") []
    (by decide) (by decide)
  ⟨h.1, h.2.1.trans (by decide)⟩

/-- C19: a logger returned by `NewLog` from any list of recognized steps is in
file-name-only or full-path mode and never in mode 0; so every line it writes holds a
location part `file:line: ` between the level tag and the message, with `file` the base
name or the whole of the caller file. -/
theorem NewLog_mode_annotates {σ : Type} (steps : List Step) (s s1 : σ) (l : Log)
    (e : Option GoError) (h : NewLog (steps.map Step.cfg) s = ((some l, e), s1))
    (env : Env) (lvl : Nat) (msg : GoString) (w : World) :
    (l.fNameMode = FILENAME_MODE_FILEONLY ∨ l.fNameMode = FILENAME_MODE_FILEPATH) ∧
      l.fNameMode ≠ FILENAME_MODE_NONE ∧
      ∃ file : GoString, (file = baseName env.callerFile ∨ file = env.callerFile) ∧
        allWrites (l.logWrite env lvl msg w).1 =
          allWrites w ++ [(l.fd, env.now ++ str " |" ++ lvlStr lvl ++ str "| " ++
            (file ++ str ":" ++ decimal env.callerLine ++ str ": ") ++ msg)] := by
  have hmode := NewLog_mode steps s s1 l e h
  refine ⟨hmode, ?_, ?_⟩
  · rcases hmode with h1 | h2
    · rw [h1]
      decide
    · rw [h2]
      decide
  · rcases hmode with h1 | h2
    · refine ⟨baseName env.callerFile, Or.inl rfl, ?_⟩
      rw [logWrite_allWrites, renderedLine_eq]
      simp [locationPart, location, h1]
    · refine ⟨env.callerFile, Or.inr rfl, ?_⟩
      rw [logWrite_allWrites, renderedLine_eq]
      simp [locationPart, location, h2, FILENAME_MODE_FILEPATH, FILENAME_MODE_FILEONLY]

theorem NewLog_mode_annotates_witness :
    pathLog.fNameMode = FILENAME_MODE_FILEONLY ∨ pathLog.fNameMode = FILENAME_MODE_FILEPATH :=
  (NewLog_mode_annotates [Step.withFileName, Step.withLevel LOGERR,
    Step.withWriter (Writer.sink 0), Step.withFilePath] () () pathLog none rfl sampleEnv
    LOGERR (str "disk full\n") []).1

end MrLog
